import Mathlib

/-!
Verification of the parallel batch-processing and incremental-resumption
pipeline of the jamieCheck repository (the grouptest scripts).  The Python
code embedded below comes from:

* grouptest/run_parallel_analysis.py   -- coordinator batching, result
  compilation, final statistics, recommendation text
* grouptest/auto_complete_analysis.py  -- deduplicating compilation,
  winner determination, significance test
* grouptest/ab_test_analyzer_enhanced.py -- per-item worker: variant URL
  construction, capture retry loop, degraded placeholder records

Modelling conventions: quantities Python holds as IEEE-754 floats are
embedded as exact rationals (all concrete inputs used in theorems are far
from any float rounding boundary); filenames and query strings are
embedded as lists of characters with executable splitting, matching and
integer parsing mirroring the corresponding Python operations; on-disk
result directories are embedded as association lists from file stems to
parsed record contents (a `none` content stands for a file whose JSON
fails to load, which the Python code logs and skips).
-/

namespace JamieCheck

/-! ## Coordinator batching (run_parallel_analysis.run_parallel_analysis)

Python, lines 193-198:
  batch_size = len(urls_to_process) // num_workers + 1
  url_batches = [urls_to_process[i:i + batch_size]
                 for i in range(0, len(urls_to_process), batch_size)]
-/

/-- Slicing loop `[xs[i:i+bs] for i in range(0, len(xs), bs)]`, driven by a
structural fuel argument.  With `0 < bs` and `xs.length ≤ fuel` the fuel
never runs out, so the `0, xs => [xs]` fallback is unreachable from
`chunkList` below. -/
def chunkListAux (bs : Nat) : Nat → List α → List (List α)
  | _, [] => []
  | 0, xs => [xs]
  | fuel+1, x :: rest =>
      ((x :: rest).take bs) :: chunkListAux bs fuel ((x :: rest).drop bs)

/-- Cut a list into consecutive contiguous slices of length `bs`; the final
slice may be shorter. -/
def chunkList (bs : Nat) (xs : List α) : List (List α) :=
  chunkListAux bs xs.length xs

/-- run_parallel_analysis.py lines 193-198: the coordinator's split of the
remaining work items into per-worker batches.  Note the batch size is
`len // num_workers + 1` (floor division plus one), not `ceil`. -/
def url_batches (num_workers : Nat) (urls_to_process : List α) : List (List α) :=
  chunkList (urls_to_process.length / num_workers + 1) urls_to_process

theorem chunkListAux_join (bs : Nat) (hbs : 0 < bs) :
    ∀ (fuel : Nat) (xs : List α), xs.length ≤ fuel →
      (chunkListAux bs fuel xs).flatten = xs := by
  intro fuel
  induction fuel with
  | zero =>
      intro xs h
      have hx : xs = [] := List.eq_nil_of_length_eq_zero (Nat.le_zero.mp h)
      subst hx
      simp [chunkListAux]
  | succ n ih =>
      intro xs h
      cases xs with
      | nil => simp [chunkListAux]
      | cons x rest =>
          have hlen : ((x :: rest).drop bs).length ≤ n := by
            simp only [List.length_drop, List.length_cons]
            simp only [List.length_cons] at h
            omega
          simp only [chunkListAux, List.flatten_cons]
          rw [ih _ hlen, List.take_append_drop]

theorem chunkList_join (bs : Nat) (hbs : 0 < bs) (xs : List α) :
    (chunkList bs xs).flatten = xs :=
  chunkListAux_join bs hbs xs.length xs (Nat.le_refl _)

theorem chunkListAux_count_le (bs : Nat) (hbs : 0 < bs) :
    ∀ (N : Nat) (fuel : Nat) (xs : List α), xs.length ≤ fuel →
      xs.length ≤ N * bs → (chunkListAux bs fuel xs).length ≤ N := by
  intro N
  induction N with
  | zero =>
      intro fuel xs hf h
      have hx : xs = [] := List.eq_nil_of_length_eq_zero (by omega)
      subst hx
      cases fuel <;> simp [chunkListAux]
  | succ N ih =>
      intro fuel xs hf h
      cases xs with
      | nil => cases fuel <;> simp [chunkListAux]
      | cons x rest =>
          cases fuel with
          | zero => simp at hf
          | succ n =>
              simp only [chunkListAux, List.length_cons]
              have hdl : ((x :: rest).drop bs).length ≤ n := by
                simp only [List.length_drop, List.length_cons]
                simp only [List.length_cons] at hf
                omega
              have hdn : ((x :: rest).drop bs).length ≤ N * bs := by
                simp only [List.length_drop, List.length_cons]
                simp only [List.length_cons] at h
                have : (N + 1) * bs = N * bs + bs := by ring
                omega
              have := ih n ((x :: rest).drop bs) hdl hdn
              omega

theorem chunkListAux_mem (bs : Nat) (hbs : 0 < bs) :
    ∀ (fuel : Nat) (xs : List α), xs.length ≤ fuel →
      ∀ c ∈ chunkListAux bs fuel xs, c ≠ [] ∧ c.length ≤ bs := by
  intro fuel
  induction fuel with
  | zero =>
      intro xs h c hc
      have hx : xs = [] := List.eq_nil_of_length_eq_zero (Nat.le_zero.mp h)
      subst hx
      simp [chunkListAux] at hc
  | succ n ih =>
      intro xs h c hc
      cases xs with
      | nil => simp [chunkListAux] at hc
      | cons x rest =>
          simp only [chunkListAux, List.mem_cons] at hc
          rcases hc with hc | hc
          · subst hc
            constructor
            · simp [List.take]
              cases bs with
              | zero => omega
              | succ b => simp [List.take]
            · simp only [List.length_take, List.length_cons]
              omega
          · exact ih _ (by
              simp only [List.length_drop, List.length_cons]
              simp only [List.length_cons] at h
              omega) c hc

theorem chunkListAux_ne_nil (bs : Nat) (fuel : Nat) (x : α) (rest : List α) :
    chunkListAux bs (fuel + 1) (x :: rest) ≠ [] := by
  simp [chunkListAux]

theorem chunkListAux_dropLast (bs : Nat) (hbs : 0 < bs) :
    ∀ (fuel : Nat) (xs : List α), xs.length ≤ fuel →
      ∀ c ∈ (chunkListAux bs fuel xs).dropLast, c.length = bs := by
  intro fuel
  induction fuel with
  | zero =>
      intro xs h c hc
      have hx : xs = [] := List.eq_nil_of_length_eq_zero (Nat.le_zero.mp h)
      subst hx
      simp [chunkListAux] at hc
  | succ n ih =>
      intro xs h c hc
      cases xs with
      | nil => simp [chunkListAux] at hc
      | cons x rest =>
          simp only [chunkListAux] at hc
          by_cases hd : (x :: rest).drop bs = []
          · rw [hd] at hc
            cases n with
            | zero => simp [chunkListAux, List.dropLast] at hc
            | succ m => simp [chunkListAux, List.dropLast] at hc
          · have hlen : ((x :: rest).drop bs).length ≤ n := by
              simp only [List.length_drop, List.length_cons]
              simp only [List.length_cons] at h
              omega
            cases n with
            | zero =>
                exfalso
                have : ((x :: rest).drop bs).length = 0 := Nat.le_zero.mp hlen
                exact hd (List.eq_nil_of_length_eq_zero this)
            | succ m =>
                obtain ⟨y, ys, hys⟩ := List.exists_cons_of_ne_nil hd
                rw [hys] at hc
                have hnn := chunkListAux_ne_nil bs m y ys
                obtain ⟨z, zs, hzs⟩ := List.exists_cons_of_ne_nil hnn
                rw [hzs, List.dropLast_cons₂, List.mem_cons] at hc
                rcases hc with hc | hc
                · subst hc
                  have hbslen : bs ≤ (x :: rest).length := by
                    by_contra hcon
                    push_neg at hcon
                    have : (x :: rest).drop bs = [] := by
                      apply List.eq_nil_of_length_eq_zero
                      simp only [List.length_drop]
                      omega
                    exact hd this
                  simp only [List.length_cons] at hbslen
                  simp only [List.length_take, List.length_cons]
                  omega
                · have := ih ((x :: rest).drop bs) hlen c
                  rw [hys, hzs] at this
                  exact this hc

/-- Claim C1, counterexample: with a backlog of 10 items and worker count
3 the coordinator computes batch_size = 10 // 3 + 1 = 4 and slices the
backlog into sizes [4,4,2] covering index ranges 1-4, 5-8 and 9-10 -- not
the [4,3,3] covering 1-4, 5-7, 8-10 stated by the claim. -/
theorem C1_partition_counterexample :
    (url_batches 3 ((List.range 10).map (fun i => i + 1))).map List.length = [4, 4, 2] ∧
    (url_batches 3 ((List.range 10).map (fun i => i + 1))).map List.length ≠ [4, 3, 3] ∧
    url_batches 3 ((List.range 10).map (fun i => i + 1)) =
      [[1, 2, 3, 4], [5, 6, 7, 8], [9, 10]] := by
  decide

/-- Claim C1, amended: for every nonempty backlog of B items and positive
worker count N, the coordinator cuts the backlog into at least one and at
most N contiguous batches whose concatenation is the backlog in original
order; every batch is nonempty with at most B / N + 1 items (floor
division plus one, the value of batch_size), and every batch except
possibly the last holds exactly B / N + 1 items. -/
theorem C1_partition_amended (N : Nat) (hN : 0 < N) (xs : List α) (hxs : xs ≠ []) :
    (url_batches N xs).flatten = xs ∧
    url_batches N xs ≠ [] ∧
    (url_batches N xs).length ≤ N ∧
    (∀ c ∈ url_batches N xs, c ≠ [] ∧ c.length ≤ xs.length / N + 1) ∧
    (∀ c ∈ (url_batches N xs).dropLast, c.length = xs.length / N + 1) := by
  refine ⟨chunkList_join _ (Nat.succ_pos _) xs, ?_, ?_, ?_, ?_⟩
  · obtain ⟨x, rest, hx⟩ := List.exists_cons_of_ne_nil hxs
    subst hx
    simp only [url_batches, chunkList, List.length_cons]
    exact chunkListAux_ne_nil _ rest.length x rest
  · apply chunkListAux_count_le _ (Nat.succ_pos _) N xs.length xs (Nat.le_refl _)
    have h1 := Nat.div_add_mod xs.length N
    have h2 : xs.length % N < N := Nat.mod_lt _ hN
    have h3 : N * (xs.length / N + 1) = N * (xs.length / N) + N := by ring
    rw [h3]
    generalize ht : N * (xs.length / N) = t at *
    omega
  · exact chunkListAux_mem _ (Nat.succ_pos _) xs.length xs (Nat.le_refl _)
  · exact chunkListAux_dropLast _ (Nat.succ_pos _) xs.length xs (Nat.le_refl _)

/-- Witness for the amended claim C1, at the scenario input (10 items,
3 workers). -/
theorem C1_partition_amended_witness :
    (url_batches 3 [10, 20, 30, 40, 50, 60, 70, 80, 90, 100]).flatten
        = [10, 20, 30, 40, 50, 60, 70, 80, 90, 100] ∧
    (url_batches 3 [10, 20, 30, 40, 50, 60, 70, 80, 90, 100]).length ≤ 3 :=
  ⟨(C1_partition_amended 3 (by decide) [10, 20, 30, 40, 50, 60, 70, 80, 90, 100]
      (by decide)).1,
   (C1_partition_amended 3 (by decide) [10, 20, 30, 40, 50, 60, 70, 80, 90, 100]
      (by decide)).2.2.1⟩

/-! ## Character-level string utilities

Executable embeddings of the Python string operations the pipeline uses on
filenames and query strings.  Python strings are embedded as `List Char`.
-/

/-- Lexicographic comparison of character lists by code point: the order
Python `sorted` uses on the file names of a glob. -/
def charListLe : List Char → List Char → Bool
  | [], _ => true
  | _ :: _, [] => false
  | a :: as, b :: bs =>
      if a.toNat < b.toNat then true
      else if b.toNat < a.toNat then false
      else charListLe as bs

/-- Whether the second list starts with the first.  Used to embed the
glob patterns enhanced_result_*.json and parallel_result_*.json over
file stems: the star matches any suffix, so a stem matches exactly when
the fixed part is an initial segment of it. -/
def listStartsWith : List Char → List Char → Bool
  | [], _ => true
  | _ :: _, [] => false
  | p :: ps, c :: cs => p = c && listStartsWith ps cs

/-- Python str.split(sep) for a one-character separator: empty pieces are
kept, so the result is always nonempty. -/
def splitChar (sep : Char) : List Char → List (List Char)
  | [] => [[]]
  | c :: cs =>
      match splitChar sep cs with
      | [] => [[]]
      | r :: rs => if c = sep then [] :: r :: rs else (c :: r) :: rs

/-- Decimal digit value of a character, if it is a digit. -/
def digitVal? (c : Char) : Option Nat :=
  if 48 ≤ c.toNat ∧ c.toNat ≤ 57 then some (c.toNat - 48) else none

/-- Accumulating decimal parse; fails on the first non-digit. -/
def parseDigitsAux (acc : Nat) : List Char → Option Nat
  | [] => some acc
  | c :: cs =>
      match digitVal? c with
      | some d => parseDigitsAux (acc * 10 + d) cs
      | none => none

/-- Nonempty all-digit parse. -/
def parseNat : List Char → Option Nat
  | [] => none
  | c :: cs => parseDigitsAux 0 (c :: cs)

/-- Strip ASCII spaces from both ends. -/
def stripSpaces (cs : List Char) : List Char :=
  ((cs.dropWhile (fun c => c = ' ')).reverse.dropWhile (fun c => c = ' ')).reverse

/-- Python int(s) on the shapes reachable here: optional surrounding
spaces, an optional sign, then one or more decimal digits (the argument
comes from a split on underscores, so the underscore digit grouping of
Python integer literals cannot occur). -/
def parseInt (cs0 : List Char) : Option Int :=
  match stripSpaces cs0 with
  | '-' :: rest => (parseNat rest).map (fun n => -(n : Int))
  | '+' :: rest => (parseNat rest).map (fun n => (n : Int))
  | cs => (parseNat cs).map (fun n => (n : Int))

/-! ## Result Store scan (run_parallel_analysis.load_urls_for_processing)

Python, lines 149-175.  The results directory is embedded as the list of
file stems present on disk.
-/

/-- The two result-file naming patterns recognized on read, lines 153:
patterns enhanced_result_*.json and parallel_result_*.json, reduced to
their fixed stem prefixes. -/
def resultFilePatterns : List (List Char) :=
  ["enhanced_result_".data, "parallel_result_".data]

/-- Lines 153-159: for each pattern, glob the directory, parse the
trailing underscore-separated segment of each stem as an integer, and
collect every successfully parsed index; stems that do not parse are
silently skipped by the bare except. -/
def existingResults (stems : List (List Char)) : List Int :=
  (resultFilePatterns.map (fun p =>
    (stems.filter (fun s => listStartsWith p s)).filterMap
      (fun s => (splitChar '_' s).getLast?.bind parseInt))).flatten

/-- One spreadsheet row: a url column and a visits column. -/
structure UrlRow where
  url : String
  visits : Nat
deriving Repr, DecidableEq

/-- Lines 163-172, the enumeration loop over rows
(for index, row in df.iterrows(): url_index = index + 1; submit the row
when url_index is not among the existing results). `i` is the 0-based row
position of the head of `rows`. -/
def urlsToProcessAux (existing : List Int) : Nat → List UrlRow → List (String × Int × Nat)
  | _, [] => []
  | i, row :: rest =>
      if existing.contains ((i : Int) + 1) then urlsToProcessAux existing (i + 1) rest
      else (row.url, ((i : Int) + 1), row.visits) :: urlsToProcessAux existing (i + 1) rest

/-- run_parallel_analysis.load_urls_for_processing: the work items the
coordinator will submit to workers, as (url, url_index, visits) triples. -/
def load_urls_for_processing (rows : List UrlRow) (stems : List (List Char)) :
    List (String × Int × Nat) :=
  urlsToProcessAux (existingResults stems) 0 rows

theorem urlsToProcessAux_mem (existing : List Int) :
    ∀ (rows : List UrlRow) (i : Nat) (j : Int),
      (j ∈ (urlsToProcessAux existing i rows).map (fun t => t.2.1)) ↔
        ((i : Int) + 1 ≤ j ∧ j ≤ (i : Int) + rows.length ∧
          existing.contains j = false) := by
  intro rows
  induction rows with
  | nil =>
      intro i j
      simp only [urlsToProcessAux, List.map_nil, List.length_nil, Nat.cast_zero,
        add_zero]
      constructor
      · intro h
        exact absurd h (List.not_mem_nil j)
      · rintro ⟨h1, h2, _⟩
        omega
  | cons row rest ih =>
      intro i j
      rw [urlsToProcessAux]
      by_cases hc : existing.contains ((i : Int) + 1) = true
      · rw [if_pos hc, ih]
        simp only [List.length_cons]
        constructor
        · rintro ⟨h1, h2, h3⟩
          refine ⟨by push_cast at h1 ⊢; omega, by push_cast at h2 ⊢; omega, h3⟩
        · rintro ⟨h1, h2, h3⟩
          refine ⟨?_, by push_cast at h2 ⊢; omega, h3⟩
          rcases eq_or_lt_of_le h1 with heq | hlt
          · exfalso
            rw [← heq] at h3
            rw [hc] at h3
            exact Bool.noConfusion h3
          · push_cast
            omega
      · have hcf : existing.contains ((i : Int) + 1) = false :=
          Bool.not_eq_true _ ▸ Bool.eq_false_iff.mpr hc
        rw [if_neg hc]
        simp only [List.map_cons, List.mem_cons, ih, List.length_cons]
        constructor
        · rintro (heq | ⟨h1, h2, h3⟩)
          · subst heq
            refine ⟨le_refl _, by push_cast; omega, hcf⟩
          · exact ⟨by push_cast at h1 ⊢; omega, by push_cast at h2 ⊢; omega, h3⟩
        · rintro ⟨h1, h2, h3⟩
          rcases eq_or_lt_of_le h1 with heq | hlt
          · exact Or.inl heq.symm
          · exact Or.inr ⟨by push_cast; omega, by push_cast at h2 ⊢; omega, h3⟩

theorem filterParse_cons (p s : List Char) (stems : List (List Char))
    (h : (splitChar '_' s).getLast?.bind parseInt = none) :
    ((s :: stems).filter (fun t => listStartsWith p t)).filterMap
        (fun t => (splitChar '_' t).getLast?.bind parseInt) =
      (stems.filter (fun t => listStartsWith p t)).filterMap
        (fun t => (splitChar '_' t).getLast?.bind parseInt) := by
  rw [List.filter_cons]
  split
  · simp [List.filterMap_cons, h]
  · rfl

/-- Claim C2: for every spreadsheet and every state of the results
directory, the coordinator submits to workers exactly the work-item
indices (row position + 1) whose index was not parsed out of any existing
result-file stem under either naming pattern; an index with an existing
result file is never submitted; and a stem whose trailing segment does
not parse as an integer contributes nothing (it is skipped, not an
error). -/
theorem C2_resumption (rows : List UrlRow) (stems : List (List Char)) :
    (∀ j : Int,
      j ∈ (load_urls_for_processing rows stems).map (fun t => t.2.1) ↔
        (1 ≤ j ∧ j ≤ rows.length ∧ (existingResults stems).contains j = false)) ∧
    (∀ s, (splitChar '_' s).getLast?.bind parseInt = none →
        existingResults (s :: stems) = existingResults stems) := by
  constructor
  · intro j
    have h := urlsToProcessAux_mem (existingResults stems) rows 0 j
    simpa using h
  · intro s hs
    simp only [existingResults]
    congr 1
    apply List.map_congr_left
    intro p _
    exact filterParse_cons p s stems hs

/-- Witness for claim C2: with rows 1-3 and result files for index 1
under the enhanced pattern (plus one unparsable stem per run style),
index 2 is submitted, and prepending a malformed stem leaves the parsed
index set unchanged. -/
theorem C2_resumption_witness :
    ((2 : Int) ∈ (load_urls_for_processing
        [⟨"u1", 0⟩, ⟨"u2", 3⟩, ⟨"u3", 1⟩]
        ["enhanced_result_001".data, "parallel_result_abc".data]).map
        (fun t => t.2.1)) ∧
    existingResults ("enhanced_result_xyz".data :: ["enhanced_result_001".data]) =
      existingResults ["enhanced_result_001".data] :=
  ⟨((C2_resumption [⟨"u1", 0⟩, ⟨"u2", 3⟩, ⟨"u3", 1⟩]
      ["enhanced_result_001".data, "parallel_result_abc".data]).1 2).mpr (by decide),
   (C2_resumption [⟨"u1", 0⟩, ⟨"u2", 3⟩, ⟨"u3", 1⟩]
      ["enhanced_result_001".data]).2 "enhanced_result_xyz".data (by decide)⟩

/-! ## Result records -/

/-- The per-variant sub-record of a ResultRecord (ab_test_analyzer_enhanced
process_url lines 337-354).  Only the fields consulted by compilation and
statistics are kept; the url / screenshot / title strings influence no
claim. -/
structure VariantRec where
  score : Rat
  duplicates : Int
deriving Repr, DecidableEq

/-- The analysis block of a ResultRecord (lines 355-362). -/
structure AnalysisBlock where
  winner : String
  confidence : Rat
deriving Repr, DecidableEq

/-- A ResultRecord as stored in one result file. -/
structure ResultRec where
  url_index : Int
  variant_a : VariantRec
  variant_b : VariantRec
  analysis : AnalysisBlock
deriving Repr, DecidableEq

/-! ## A stable sort

Python list.sort and sorted are stable; the embedding uses an insertion
sort with the same input/output contract. -/

/-- Insert x after every already-placed element that compares
less-or-equal to it: the stable position. -/
def insertStable (le : α → α → Bool) (x : α) : List α → List α
  | [] => [x]
  | y :: ys => if le y x then y :: insertStable le x ys else x :: y :: ys

/-- Stable sort by the boolean comparison le. -/
def sortStable (le : α → α → Bool) (xs : List α) : List α :=
  xs.foldl (fun acc x => insertStable le x acc) []

theorem insertStable_perm (le : α → α → Bool) (x : α) :
    ∀ ys : List α, List.Perm (insertStable le x ys) (x :: ys) := by
  intro ys
  induction ys with
  | nil => simp [insertStable]
  | cons y ys ih =>
      rw [insertStable]
      split
      · exact (ih.cons y).trans (List.Perm.swap x y ys)
      · rfl

theorem sortStable_fold_perm (le : α → α → Bool) :
    ∀ (xs acc : List α),
      List.Perm (xs.foldl (fun a x => insertStable le x a) acc) (acc ++ xs) := by
  intro xs
  induction xs with
  | nil => intro acc; simp
  | cons x xs ih =>
      intro acc
      simp only [List.foldl_cons]
      have h1 : List.Perm (xs.foldl (fun a x => insertStable le x a) (insertStable le x acc))
          (insertStable le x acc ++ xs) := ih _
      have h2 : List.Perm (insertStable le x acc ++ xs) ((x :: acc) ++ xs) :=
        (insertStable_perm le x acc).append_right xs
      have h3 : List.Perm ((x :: acc) ++ xs) (acc ++ x :: xs) := List.perm_middle.symm
      exact (h1.trans h2).trans h3

theorem sortStable_perm (le : α → α → Bool) (xs : List α) :
    List.Perm (sortStable le xs) xs := by
  simpa using sortStable_fold_perm le xs []

theorem insertStable_pairwise (le : α → α → Bool)
    (htot : ∀ a b, le a b = false → le b a = true)
    (htrans : ∀ a b c, le a b = true → le b c = true → le a c = true)
    (x : α) :
    ∀ ys : List α, ys.Pairwise (fun a b => le a b = true) →
      (insertStable le x ys).Pairwise (fun a b => le a b = true) := by
  intro ys
  induction ys with
  | nil => intro _; simp [insertStable]
  | cons y ys ih =>
      intro h
      rw [List.pairwise_cons] at h
      obtain ⟨hy, hys⟩ := h
      rw [insertStable]
      split
      · rename_i hle
        rw [List.pairwise_cons]
        refine ⟨?_, ih hys⟩
        intro b hb
        have := (insertStable_perm le x ys).mem_iff.mp hb
        rcases List.mem_cons.mp this with h1 | h1
        · subst h1; exact hle
        · exact hy b h1
      · rename_i hle
        have hxy : le x y = true := htot y x (Bool.eq_false_iff.mpr hle)
        rw [List.pairwise_cons]
        refine ⟨?_, List.pairwise_cons.mpr ⟨hy, hys⟩⟩
        intro b hb
        rcases List.mem_cons.mp hb with h1 | h1
        · subst h1; exact hxy
        · exact htrans x y b hxy (hy b h1)

theorem sortStable_fold_pairwise (le : α → α → Bool)
    (htot : ∀ a b, le a b = false → le b a = true)
    (htrans : ∀ a b c, le a b = true → le b c = true → le a c = true) :
    ∀ (xs acc : List α), acc.Pairwise (fun a b => le a b = true) →
      (xs.foldl (fun a x => insertStable le x a) acc).Pairwise
        (fun a b => le a b = true) := by
  intro xs
  induction xs with
  | nil => intro acc h; simpa using h
  | cons x xs ih =>
      intro acc h
      simp only [List.foldl_cons]
      exact ih _ (insertStable_pairwise le htot htrans x acc h)

theorem sortStable_pairwise (le : α → α → Bool)
    (htot : ∀ a b, le a b = false → le b a = true)
    (htrans : ∀ a b c, le a b = true → le b c = true → le a c = true)
    (xs : List α) :
    (sortStable le xs).Pairwise (fun a b => le a b = true) :=
  sortStable_fold_pairwise le htot htrans xs [] (by simp)

/-! ## Result compilation -/

/-- One file of the results directory: its stem and its parsed content
(`none` embeds a file whose JSON fails to load; both compile loops log
and skip those). -/
structure DiskFile where
  stem : List Char
  content : Option ResultRec
deriving Repr, DecidableEq

/-- sorted(results_dir.glob(pattern)) for one pattern: the matching files
in lexicographic stem order. -/
def globSorted (disk : List DiskFile) (p : List Char) : List DiskFile :=
  sortStable (fun a b => charListLe a.stem b.stem)
    (disk.filter (fun f => listStartsWith p f.stem))

/-- The load loop shared by run_parallel_analysis.compile_final_results
(lines 252-263) and auto_complete_analysis.compile_all_results (lines
56-64): for each pattern in order, read every matching file in sorted
order, skipping files that fail to load. -/
def loadAllResults (disk : List DiskFile) : List ResultRec :=
  (resultFilePatterns.map (fun p =>
    (globSorted disk p).filterMap (fun f => f.content))).flatten

/-- run_parallel_analysis.compile_final_results lines 248-266: every
loaded record, sorted ascending by url_index.  There is no
deduplication step in this function. -/
def compile_final_results (disk : List DiskFile) : List ResultRec :=
  sortStable (fun a b => a.url_index ≤ b.url_index) (loadAllResults disk)

/-- Python dict assignment on an association list: overwrite in place if
the key is present, append otherwise. -/
def dictInsert (k : Int) (v : ResultRec) :
    List (Int × ResultRec) → List (Int × ResultRec)
  | [] => [(k, v)]
  | (k0, v0) :: rest =>
      if k0 = k then (k, v) :: rest else (k0, v0) :: dictInsert k v rest

/-- auto_complete_analysis.compile_all_results lines 66-71: build
unique_results, a dict keyed by url_index -- the later loaded record for
a given index wins, and a record whose url_index is falsy (0) is
dropped. -/
def uniqueResults (rs : List ResultRec) : List (Int × ResultRec) :=
  rs.foldl (fun m r => if r.url_index ≠ 0 then dictInsert r.url_index r m else m) []

/-- auto_complete_analysis.compile_all_results lines 49-82: load all
result files, deduplicate by index (last loaded wins), sort ascending by
url_index. -/
def compile_all_results (disk : List DiskFile) : List ResultRec :=
  sortStable (fun a b => a.url_index ≤ b.url_index)
    ((uniqueResults (loadAllResults disk)).map (fun kv => kv.2))

def dictKeys (m : List (Int × ResultRec)) : List Int := m.map Prod.fst

theorem dictInsert_keys (k : Int) (v : ResultRec) :
    ∀ m : List (Int × ResultRec),
      dictKeys (dictInsert k v m) =
        if k ∈ dictKeys m then dictKeys m else dictKeys m ++ [k] := by
  intro m
  induction m with
  | nil => simp [dictInsert, dictKeys]
  | cons p rest ih =>
      obtain ⟨k0, v0⟩ := p
      rw [dictInsert]
      by_cases h : k0 = k
      · subst h
        simp [dictKeys]
      · rw [if_neg h]
        simp only [dictKeys, List.map_cons] at ih ⊢
        rw [ih]
        by_cases hk : k ∈ rest.map Prod.fst
        · simp [hk, List.mem_cons]
        · have hk0 : ¬ k = k0 := fun hh => h hh.symm
          simp [hk, List.mem_cons, hk0]

theorem dictInsert_mem (k : Int) (v : ResultRec) :
    ∀ m, ∀ p ∈ dictInsert k v m, p = (k, v) ∨ p ∈ m := by
  intro m
  induction m with
  | nil =>
      intro p hp
      rw [dictInsert] at hp
      exact Or.inl (List.mem_singleton.mp hp)
  | cons q rest ih =>
      obtain ⟨k0, v0⟩ := q
      intro p hp
      rw [dictInsert] at hp
      split at hp
      · rcases List.mem_cons.mp hp with h1 | h1
        · exact Or.inl h1
        · exact Or.inr (List.mem_cons_of_mem _ h1)
      · rcases List.mem_cons.mp hp with h1 | h1
        · exact Or.inr (h1 ▸ List.mem_cons_self _ _)
        · rcases ih p h1 with h2 | h2
          · exact Or.inl h2
          · exact Or.inr (List.mem_cons_of_mem _ h2)

theorem uniqueResults_fold_inv :
    ∀ (rs : List ResultRec) (m : List (Int × ResultRec)),
      (dictKeys m).Nodup → (∀ p ∈ m, p.2.url_index = p.1) →
      (dictKeys (rs.foldl
          (fun m r => if r.url_index ≠ 0 then dictInsert r.url_index r m else m)
          m)).Nodup ∧
      (∀ p ∈ rs.foldl
          (fun m r => if r.url_index ≠ 0 then dictInsert r.url_index r m else m) m,
        p.2.url_index = p.1) := by
  intro rs
  induction rs with
  | nil =>
      intro m h1 h2
      exact ⟨h1, h2⟩
  | cons r rs ih =>
      intro m h1 h2
      simp only [List.foldl_cons]
      by_cases hr : r.url_index ≠ 0
      · rw [if_pos hr]
        apply ih
        · rw [dictInsert_keys]
          split
          · exact h1
          · rename_i hnot
            simp [List.nodup_append, h1, hnot]
        · intro p hp
          rcases dictInsert_mem _ _ _ p hp with h | h
          · rw [h]
          · exact h2 p h
      · rw [if_neg hr]
        exact ih m h1 h2

theorem uniqueResults_values_pairwise (rs : List ResultRec) :
    ((uniqueResults rs).map (fun kv => kv.2)).Pairwise
      (fun a b => a.url_index ≠ b.url_index) := by
  obtain ⟨h1, h2⟩ := uniqueResults_fold_inv rs []
    (by simp [dictKeys]) (by simp)
  rw [List.pairwise_map]
  unfold List.Nodup dictKeys at h1
  have h1m := List.pairwise_map.mp h1
  refine h1m.imp_of_mem ?_
  intro a b ha hb hne hcon
  apply hne
  rw [← h2 a ha, ← h2 b hb]
  exact hcon

/-- Claim C3, counterexample: with one enhanced-style file and one
parallel-style file both holding a record for index 1,
run_parallel_analysis.compile_final_results keeps both records -- the
compiled result set has two records for the same work-item index, so the
at-most-one-record-per-index part of the claim fails for that compile
path. -/
theorem C3_compiled_counterexample :
    ((compile_final_results
        [⟨"enhanced_result_001".data,
          some { url_index := 1, variant_a := ⟨0, 0⟩, variant_b := ⟨0, 0⟩,
                 analysis := ⟨"E", 0⟩ }⟩,
         ⟨"parallel_result_001".data,
          some { url_index := 1, variant_a := ⟨0, 0⟩, variant_b := ⟨0, 0⟩,
                 analysis := ⟨"P", 0⟩ }⟩]).map (fun r => r.url_index) = [1, 1]) ∧
    ((compile_final_results
        [⟨"enhanced_result_001".data,
          some { url_index := 1, variant_a := ⟨0, 0⟩, variant_b := ⟨0, 0⟩,
                 analysis := ⟨"E", 0⟩ }⟩,
         ⟨"parallel_result_001".data,
          some { url_index := 1, variant_a := ⟨0, 0⟩, variant_b := ⟨0, 0⟩,
                 analysis := ⟨"P", 0⟩ }⟩]).filter
        (fun r => r.url_index = 1)).length = 2 := by
  decide

/-- Claim C3, amended: auto_complete_analysis.compile_all_results does
satisfy the claim -- at most one record per index (strictly increasing
url_index, the later-loaded file winning, as the concrete two-style
example shows: the parallel-prefixed file is loaded after the
enhanced-prefixed one and wins) -- while
run_parallel_analysis.compile_final_results only sorts ascending by
url_index and retains duplicate records when files of both naming styles
exist for one index. -/
theorem C3_compiled_amended (disk : List DiskFile) :
    (compile_all_results disk).Pairwise (fun a b => a.url_index < b.url_index) ∧
    (compile_final_results disk).Pairwise (fun a b => a.url_index ≤ b.url_index) ∧
    ((compile_all_results
        [⟨"enhanced_result_001".data,
          some { url_index := 1, variant_a := ⟨0, 0⟩, variant_b := ⟨0, 0⟩,
                 analysis := ⟨"E", 0⟩ }⟩,
         ⟨"parallel_result_001".data,
          some { url_index := 1, variant_a := ⟨0, 0⟩, variant_b := ⟨0, 0⟩,
                 analysis := ⟨"P", 0⟩ }⟩]).map (fun r => r.analysis.winner) = ["P"]) := by
  have htot : ∀ a b : ResultRec,
      (decide (a.url_index ≤ b.url_index)) = false →
        (decide (b.url_index ≤ a.url_index)) = true := by
    intro a b h
    simp only [decide_eq_false_iff_not] at h
    simp only [decide_eq_true_eq]
    omega
  have htrans : ∀ a b c : ResultRec,
      (decide (a.url_index ≤ b.url_index)) = true →
        (decide (b.url_index ≤ c.url_index)) = true →
        (decide (a.url_index ≤ c.url_index)) = true := by
    intro a b c h1 h2
    simp only [decide_eq_true_eq] at h1 h2 ⊢
    omega
  refine ⟨?_, ?_, by decide⟩
  · have hsorted := sortStable_pairwise
      (fun a b : ResultRec => a.url_index ≤ b.url_index) htot htrans
      ((uniqueResults (loadAllResults disk)).map (fun kv => kv.2))
    have hperm := sortStable_perm
      (fun a b : ResultRec => a.url_index ≤ b.url_index)
      ((uniqueResults (loadAllResults disk)).map (fun kv => kv.2))
    have hne := uniqueResults_values_pairwise (loadAllResults disk)
    have hne' : (compile_all_results disk).Pairwise
        (fun a b => a.url_index ≠ b.url_index) :=
      (hperm.pairwise_iff (fun h => h.symm)).mpr hne
    simp only [decide_eq_true_eq] at hsorted
    have := hsorted.and hne'
    exact this.imp (fun h => lt_of_le_of_ne h.1 h.2)
  · have hsorted := sortStable_pairwise
      (fun a b : ResultRec => a.url_index ≤ b.url_index) htot htrans
      (loadAllResults disk)
    simp only [decide_eq_true_eq] at hsorted
    exact hsorted

/-! ## Final statistics (run_parallel_analysis.calculate_final_statistics,
lines 279-344) -/

/-- Round half to even: the rounding mode of Python round.  (Python
rounds the IEEE-754 double; every value rounded in the theorems below is
exactly representable, so the two agree on them.) -/
def roundHalfEven (x : Rat) : Int :=
  let f : Int := ⌊x⌋
  let frac : Rat := x - f
  if frac < 1/2 then f
  else if 1/2 < frac then f + 1
  else if f % 2 = 0 then f else f + 1

/-- Python round(x, d). -/
def pyRound (d : Nat) (x : Rat) : Rat :=
  (roundHalfEven (x * (10 : Rat) ^ d) : Rat) / (10 : Rat) ^ d

/-- Line 287: wins_a. -/
def wins_a (results : List ResultRec) : Nat :=
  (results.filter (fun r => r.analysis.winner = "A")).length

/-- Line 288: wins_b. -/
def wins_b (results : List ResultRec) : Nat :=
  (results.filter (fun r => r.analysis.winner = "B")).length

/-- Line 289: ties. -/
def ties (results : List ResultRec) : Nat :=
  (results.filter (fun r => r.analysis.winner = "Tie")).length

/-- Lines 292-296: sum of variant A duplicate counts over the records
whose variant A count is nonnegative. -/
def total_duplicates_a (results : List ResultRec) : Int :=
  ((results.filter (fun r => 0 ≤ r.variant_a.duplicates)).map
    (fun r => r.variant_a.duplicates)).sum

/-- Lines 297-301: sum of variant B duplicate counts over the records
whose variant B count is nonnegative. -/
def total_duplicates_b (results : List ResultRec) : Int :=
  ((results.filter (fun r => 0 ≤ r.variant_b.duplicates)).map
    (fun r => r.variant_b.duplicates)).sum

/-- Lines 303-306: the shared denominator, counting only records whose
VARIANT A duplicate count is nonnegative. -/
def valid_duplicate_count (results : List ResultRec) : Nat :=
  (results.filter (fun r => 0 ≤ r.variant_a.duplicates)).length

/-- Line 308. -/
def avg_duplicates_a (results : List ResultRec) : Rat :=
  if valid_duplicate_count results ≠ 0 then
    (total_duplicates_a results : Rat) / (valid_duplicate_count results : Rat)
  else 0

/-- Line 309: the same variant-A-based denominator divides the variant B
total. -/
def avg_duplicates_b (results : List ResultRec) : Rat :=
  if valid_duplicate_count results ≠ 0 then
    (total_duplicates_b results : Rat) / (valid_duplicate_count results : Rat)
  else 0

/-- Lines 312-315. -/
def avg_confidence (results : List ResultRec) : Rat :=
  (results.map (fun r => r.analysis.confidence)).sum / (results.length : Rat)

/-- Lines 318-321. -/
def avg_score_a (results : List ResultRec) : Rat :=
  (results.map (fun r => r.variant_a.score)).sum / (results.length : Rat)

/-- Lines 322-325. -/
def avg_score_b (results : List ResultRec) : Rat :=
  (results.map (fun r => r.variant_b.score)).sum / (results.length : Rat)

/-- Line 343: the overall_winner field -- the variant with strictly more
wins, Tie when equal. -/
def overall_winner_str (wa wb : Nat) : String :=
  if wa > wb then "A (opt_seg=5)"
  else if wb > wa then "B (opt_seg=6)"
  else "Tie"

/-- run_parallel_analysis.generate_recommendation lines 380-400. -/
def generate_recommendation (wa wb : Nat) (avg_dup_a avg_dup_b : Rat) : String :=
  if (wa : Rat) > (wb : Rat) * 1.2 then
    if avg_dup_a < avg_dup_b then
      "Strongly recommend opt_seg=5 (better rankings AND fewer duplicates)"
    else
      "Recommend opt_seg=5 (significantly better rankings despite more duplicates)"
  else if (wb : Rat) > (wa : Rat) * 1.2 then
    if avg_dup_b < avg_dup_a then
      "Strongly recommend opt_seg=6 (better rankings AND fewer duplicates)"
    else
      "Recommend opt_seg=6 (significantly better rankings despite more duplicates)"
  else
    if |avg_dup_a - avg_dup_b| > 1 then
      if avg_dup_a < avg_dup_b then
        "Slight preference for opt_seg=5 (similar quality but fewer duplicates)"
      else
        "Slight preference for opt_seg=6 (similar quality but fewer duplicates)"
    else
      "No clear winner - both algorithms perform similarly. Consider A/B testing in production."

/-- The statistics object built at lines 327-345. -/
structure FinalStats where
  total_urls_analyzed : Nat
  variant_a_wins : Nat
  variant_b_wins : Nat
  ties : Nat
  win_percentage_a : Rat
  win_percentage_b : Rat
  tie_percentage : Rat
  average_confidence : Rat
  average_score_a : Rat
  average_score_b : Rat
  average_duplicates_a : Rat
  average_duplicates_b : Rat
  total_duplicates_a : Int
  total_duplicates_b : Int
  duplicate_difference : Rat
  overall_winner : String
  recommendation : String
deriving Repr

/-- run_parallel_analysis.calculate_final_statistics lines 279-345
(returns none for an empty result list, mirroring the early return at
lines 282-284). -/
def calculate_final_statistics (results : List ResultRec) : Option FinalStats :=
  if results.length = 0 then none
  else some {
    total_urls_analyzed := results.length
    variant_a_wins := wins_a results
    variant_b_wins := wins_b results
    ties := ties results
    win_percentage_a := pyRound 1 ((wins_a results : Rat) / (results.length : Rat) * 100)
    win_percentage_b := pyRound 1 ((wins_b results : Rat) / (results.length : Rat) * 100)
    tie_percentage := pyRound 1 ((ties results : Rat) / (results.length : Rat) * 100)
    average_confidence := pyRound 3 (avg_confidence results)
    average_score_a := pyRound 2 (avg_score_a results)
    average_score_b := pyRound 2 (avg_score_b results)
    average_duplicates_a := pyRound 2 (avg_duplicates_a results)
    average_duplicates_b := pyRound 2 (avg_duplicates_b results)
    total_duplicates_a := total_duplicates_a results
    total_duplicates_b := total_duplicates_b results
    duplicate_difference := pyRound 2 (avg_duplicates_b results - avg_duplicates_a results)
    overall_winner := overall_winner_str (wins_a results) (wins_b results)
    recommendation := generate_recommendation (wins_a results) (wins_b results)
      (avg_duplicates_a results) (avg_duplicates_b results) }

/-! ## auto_complete_analysis statistics helpers -/

/-- auto_complete_analysis.determine_winner lines 155-173: the
overall_winner field of the comprehensive statistics. -/
def determine_winner (wa wb : Nat) (dup_a dup_b : Rat) : String :=
  if (wa : Rat) > (wb : Rat) * 1.15 then
    "Variant A (opt_seg=5) - Clear winner with " ++ toString wa ++ " wins"
  else if (wb : Rat) > (wa : Rat) * 1.15 then
    "Variant B (opt_seg=6) - Clear winner with " ++ toString wb ++ " wins"
  else if |(wa : Int) - (wb : Int)| ≤ 5 then
    if |dup_a - dup_b| > 1/2 then
      if dup_a < dup_b then
        "Variant A (opt_seg=5) - Marginal win with fewer duplicates"
      else
        "Variant B (opt_seg=6) - Marginal win with fewer duplicates"
    else "Statistical Tie - No clear winner"
  else
    if wa > wb then
      "Variant A (opt_seg=5) - Slight advantage with " ++ toString wa ++ " wins"
    else
      "Variant B (opt_seg=6) - Slight advantage with " ++ toString wb ++ " wins"

/-- auto_complete_analysis.calculate_significance lines 176-185 computes
z = abs(observed - expected) / sqrt(total * 0.25) with the float sqrt
(0 when the standard deviation is 0).  z and the three thresholds are all
nonnegative, so every comparison of z against a threshold t is equivalent
to comparing z squared against t squared; the embedding carries z squared
exactly over the rationals. -/
def zsq (wa wb total : Nat) : Rat :=
  let expected : Rat := (total : Rat) / 2
  let observed : Rat := ((max wa wb : Nat) : Rat)
  let variance : Rat := (total : Rat) * (1/4)
  if 0 < variance then (observed - expected) ^ 2 / variance else 0

/-- auto_complete_analysis.calculate_significance lines 187-194: the four
confidence bands by thresholds 2.58 / 1.96 / 1.64 on the z-score,
restated on the squared values. -/
def calculate_significance (wa wb total : Nat) : String :=
  if zsq wa wb total > (2.58 : Rat) ^ 2 then "Highly significant (99% confidence)"
  else if zsq wa wb total > (1.96 : Rat) ^ 2 then "Significant (95% confidence)"
  else if zsq wa wb total > (1.64 : Rat) ^ 2 then "Marginally significant (90% confidence)"
  else "Not statistically significant"

/-- The scenario record list of the spec: five records with winners
A, A, B, Tie, A. -/
def scenarioRecords : List ResultRec :=
  [{ url_index := 1, variant_a := ⟨7, 0⟩, variant_b := ⟨5, 0⟩, analysis := ⟨"A", 1⟩ },
   { url_index := 2, variant_a := ⟨8, 1⟩, variant_b := ⟨6, 1⟩, analysis := ⟨"A", 1⟩ },
   { url_index := 3, variant_a := ⟨5, 2⟩, variant_b := ⟨7, 0⟩, analysis := ⟨"B", 1⟩ },
   { url_index := 4, variant_a := ⟨6, 0⟩, variant_b := ⟨6, 0⟩, analysis := ⟨"Tie", 1⟩ },
   { url_index := 5, variant_a := ⟨9, 1⟩, variant_b := ⟨4, 2⟩, analysis := ⟨"A", 1⟩ }]

/-- Claim C6, counterexample: auto_complete_analysis.determine_winner --
which produces the overall_winner field of the comprehensive statistics
and is one of the two functions the claim covers -- is not
strictly-more-wins / Tie-when-equal: with 10 wins against 9 and no
duplicate gap it reports a statistical tie although A has strictly more
wins, and with equal wins but a duplicate gap it picks variant A instead
of a tie. -/
theorem C6_overall_winner_counterexample :
    determine_winner 10 9 0 0 = "Statistical Tie - No clear winner" ∧
    determine_winner 10 10 0 10 =
      "Variant A (opt_seg=5) - Marginal win with fewer duplicates" := by
  constructor
  · norm_num [determine_winner]
  · norm_num [determine_winner]

/-- Claim C6, amended: the overall_winner of
run_parallel_analysis.calculate_final_statistics is the variant with
strictly more wins and Tie when the counts are equal, and the
five-record scenario with winners [A,A,B,Tie,A] yields variant_a_wins=3,
variant_b_wins=1, ties=1, win_percentage_a=60.0 and overall winner A;
auto_complete_analysis.determine_winner instead applies
ratio-1.15/closeness/duplicate tiers. -/
theorem C6_overall_winner_amended (wa wb : Nat) :
    (wa > wb → overall_winner_str wa wb = "A (opt_seg=5)") ∧
    (wb > wa → overall_winner_str wa wb = "B (opt_seg=6)") ∧
    (wa = wb → overall_winner_str wa wb = "Tie") ∧
    ((calculate_final_statistics scenarioRecords).map
        (fun s => (s.variant_a_wins, s.variant_b_wins, s.ties)) = some (3, 1, 1)) ∧
    ((calculate_final_statistics scenarioRecords).map
        (fun s => s.win_percentage_a) = some 60) ∧
    ((calculate_final_statistics scenarioRecords).map
        (fun s => s.overall_winner) = some "A (opt_seg=5)") := by
  refine ⟨?_, ?_, ?_, by decide, ?_, by decide⟩
  · intro h
    simp [overall_winner_str, h]
  · intro h
    unfold overall_winner_str
    rw [if_neg (by omega), if_pos h]
  · intro h
    unfold overall_winner_str
    rw [if_neg (by omega), if_neg (by omega)]
  · have hw : wins_a scenarioRecords = 3 := by decide
    have h5 : scenarioRecords.length = 5 := by decide
    unfold calculate_final_statistics
    rw [h5, hw]
    norm_num [pyRound, roundHalfEven]

/-- Witness for the amended claim C6. -/
theorem C6_overall_winner_amended_witness :
    overall_winner_str 3 1 = "A (opt_seg=5)" :=
  (C6_overall_winner_amended 3 1).1 (by decide)

/-- Claim C7, counterexample: with equal wins and an average-duplicate
gap of 0.7 (above the claimed 0.5 threshold),
run_parallel_analysis.generate_recommendation still reports no clear
winner, because its duplicate-gap threshold is 1, not 0.5. -/
theorem C7_recommendation_counterexample :
    generate_recommendation 1 1 0 (7/10) =
      "No clear winner - both algorithms perform similarly. Consider A/B testing in production." ∧
    generate_recommendation 1 1 0 (7/10) ≠
      "Slight preference for opt_seg=5 (similar quality but fewer duplicates)" := by
  have h : generate_recommendation 1 1 0 (7/10) =
      "No clear winner - both algorithms perform similarly. Consider A/B testing in production." := by
    norm_num [generate_recommendation, abs_of_nonneg]
  refine ⟨h, ?_⟩
  rw [h]
  decide

/-- Claim C7, amended: the recommendation tiers of
run_parallel_analysis.generate_recommendation are: win ratio above 1.2
gives a recommendation for the leader (phrased strongly only when the
leader also has fewer average duplicates); otherwise an
average-duplicate gap strictly greater than 1 (not 0.5) gives a slight
preference for the lower-duplicate variant; otherwise no clear winner. -/
theorem C7_recommendation_amended (wa wb : Nat) (da db : Rat) :
    ((wa : Rat) > (wb : Rat) * 1.2 → da < db →
      generate_recommendation wa wb da db =
        "Strongly recommend opt_seg=5 (better rankings AND fewer duplicates)") ∧
    ((wa : Rat) > (wb : Rat) * 1.2 → ¬ da < db →
      generate_recommendation wa wb da db =
        "Recommend opt_seg=5 (significantly better rankings despite more duplicates)") ∧
    (¬ (wa : Rat) > (wb : Rat) * 1.2 → (wb : Rat) > (wa : Rat) * 1.2 → db < da →
      generate_recommendation wa wb da db =
        "Strongly recommend opt_seg=6 (better rankings AND fewer duplicates)") ∧
    (¬ (wa : Rat) > (wb : Rat) * 1.2 → (wb : Rat) > (wa : Rat) * 1.2 → ¬ db < da →
      generate_recommendation wa wb da db =
        "Recommend opt_seg=6 (significantly better rankings despite more duplicates)") ∧
    (¬ (wa : Rat) > (wb : Rat) * 1.2 → ¬ (wb : Rat) > (wa : Rat) * 1.2 →
      |da - db| > 1 → da < db →
      generate_recommendation wa wb da db =
        "Slight preference for opt_seg=5 (similar quality but fewer duplicates)") ∧
    (¬ (wa : Rat) > (wb : Rat) * 1.2 → ¬ (wb : Rat) > (wa : Rat) * 1.2 →
      |da - db| > 1 → ¬ da < db →
      generate_recommendation wa wb da db =
        "Slight preference for opt_seg=6 (similar quality but fewer duplicates)") ∧
    (¬ (wa : Rat) > (wb : Rat) * 1.2 → ¬ (wb : Rat) > (wa : Rat) * 1.2 →
      ¬ |da - db| > 1 →
      generate_recommendation wa wb da db =
        "No clear winner - both algorithms perform similarly. Consider A/B testing in production.") := by
  unfold generate_recommendation
  refine ⟨?_, ?_, ?_, ?_, ?_, ?_, ?_⟩
  · intro h1 h2
    rw [if_pos h1, if_pos h2]
  · intro h1 h2
    rw [if_pos h1, if_neg h2]
  · intro h1 h2 h3
    rw [if_neg h1, if_pos h2, if_pos h3]
  · intro h1 h2 h3
    rw [if_neg h1, if_pos h2, if_neg h3]
  · intro h1 h2 h3 h4
    rw [if_neg h1, if_neg h2, if_pos h3, if_pos h4]
  · intro h1 h2 h3 h4
    rw [if_neg h1, if_neg h2, if_pos h3, if_neg h4]
  · intro h1 h2 h3
    rw [if_neg h1, if_neg h2, if_neg h3]

/-- Witness for the amended claim C7: 11 against 10 wins is inside the
1.2 ratio band and an average-duplicate gap of 2 exceeds 1, giving the
slight preference for variant A. -/
theorem C7_recommendation_amended_witness :
    generate_recommendation 11 10 0 2 =
      "Slight preference for opt_seg=5 (similar quality but fewer duplicates)" :=
  (C7_recommendation_amended 11 10 0 2).2.2.2.2.1
    (by norm_num) (by norm_num) (by norm_num) (by norm_num)

/-- Claim C8, counterexample: with 200 total and 130 against 70 wins the
code's z-score squared is (130-100)^2 / 50 = 18, hence z is strictly
below 8 -- not approximately 8.49 as the claim states (8.49 is
|130-70|/sqrt(50), using the win gap instead of the deviation from the
expectation); the band is still "Highly significant (99% confidence)". -/
theorem C8_significance_counterexample :
    zsq 130 70 200 = 18 ∧
    ¬ ((8 : Rat) ^ 2 ≤ zsq 130 70 200) ∧
    calculate_significance 130 70 200 = "Highly significant (99% confidence)" := by
  refine ⟨by norm_num [zsq], by norm_num [zsq], ?_⟩
  norm_num [calculate_significance, zsq]

/-- Claim C8, amended: significance is a one-proportion z-test against
the 50/50 expectation, z = |max(wins) - total/2| / sqrt(total * 0.25)
(stated here on squared values), bucketed into exactly four bands by the
thresholds 2.58, 1.96, 1.64; for 200 total with 130 against 70 wins the
z-score is approximately 4.24 (z squared is 18, between 4.24^2 and
4.25^2) and the result is "Highly significant (99% confidence)". -/
theorem C8_significance_amended (wa wb total : Nat) :
    (calculate_significance wa wb total = "Highly significant (99% confidence)" ↔
      zsq wa wb total > (2.58 : Rat) ^ 2) ∧
    (calculate_significance wa wb total = "Significant (95% confidence)" ↔
      (¬ zsq wa wb total > (2.58 : Rat) ^ 2 ∧ zsq wa wb total > (1.96 : Rat) ^ 2)) ∧
    (calculate_significance wa wb total = "Marginally significant (90% confidence)" ↔
      (¬ zsq wa wb total > (2.58 : Rat) ^ 2 ∧ ¬ zsq wa wb total > (1.96 : Rat) ^ 2 ∧
        zsq wa wb total > (1.64 : Rat) ^ 2)) ∧
    (calculate_significance wa wb total = "Not statistically significant" ↔
      (¬ zsq wa wb total > (2.58 : Rat) ^ 2 ∧ ¬ zsq wa wb total > (1.96 : Rat) ^ 2 ∧
        ¬ zsq wa wb total > (1.64 : Rat) ^ 2)) ∧
    (zsq 130 70 200 = 18 ∧ (4.24 : Rat) ^ 2 < 18 ∧ (18 : Rat) < (4.25 : Rat) ^ 2 ∧
      calculate_significance 130 70 200 = "Highly significant (99% confidence)") := by
  refine ⟨?_, ?_, ?_, ?_,
    by norm_num [zsq], by norm_num, by norm_num, by norm_num [calculate_significance, zsq]⟩ <;>
  · unfold calculate_significance
    by_cases h1 : zsq wa wb total > (2.58 : Rat) ^ 2 <;>
      by_cases h2 : zsq wa wb total > (1.96 : Rat) ^ 2 <;>
        by_cases h3 : zsq wa wb total > (1.64 : Rat) ^ 2 <;>
          simp [h1, h2, h3]

/-- Witness for the amended claim C8, at the scenario input. -/
theorem C8_significance_amended_witness :
    calculate_significance 130 70 200 = "Highly significant (99% confidence)" :=
  (C8_significance_amended 130 70 200).1.mpr (by norm_num [zsq])

/-- Claim C10: in calculate_final_statistics the denominator of both
duplicate averages is the count of records whose VARIANT A duplicate
count is nonnegative; variant B validity is never consulted for it, so a
record with variant A duplicates -1 but a nonnegative variant B count
contributes its B count to total_duplicates_b while being excluded from
the count that average_duplicates_b is divided by. -/
theorem C10_duplicate_denominator (rs : List ResultRec) (r : ResultRec)
    (ha : r.variant_a.duplicates < 0) (hb : 0 ≤ r.variant_b.duplicates) :
    valid_duplicate_count (r :: rs) = valid_duplicate_count rs ∧
    total_duplicates_b (r :: rs) = r.variant_b.duplicates + total_duplicates_b rs ∧
    avg_duplicates_b (r :: rs) =
      (if valid_duplicate_count rs ≠ 0 then
        ((r.variant_b.duplicates + total_duplicates_b rs : Int) : Rat) /
          (valid_duplicate_count rs : Rat)
       else 0) ∧
    (∀ f : ResultRec → VariantRec,
      valid_duplicate_count (rs.map (fun x => { x with variant_b := f x })) =
        valid_duplicate_count rs) := by
  have hna : ¬ (0 ≤ r.variant_a.duplicates) := by omega
  have h1 : valid_duplicate_count (r :: rs) = valid_duplicate_count rs := by
    simp [valid_duplicate_count, List.filter_cons, hna]
  have h2 : total_duplicates_b (r :: rs) =
      r.variant_b.duplicates + total_duplicates_b rs := by
    simp [total_duplicates_b, List.filter_cons, hb]
  refine ⟨h1, h2, ?_, ?_⟩
  · unfold avg_duplicates_b
    rw [h1, h2]
  · intro f
    unfold valid_duplicate_count
    rw [List.filter_map, List.length_map]
    rfl

/-! ## Decimal digits and zero padding

The result-file names embed the work-item index through the f-string
format {url_index:03d}.  The digits are produced least significant first
into an accumulator, driven by a structural fuel that is always
sufficient (a number has at most as many digits as its value). -/

def isDigitChar (c : Char) : Prop := 48 ≤ c.toNat ∧ c.toNat ≤ 57

def natToDigitsFuel : Nat → Nat → List Char → List Char
  | 0, _, acc => acc
  | fuel + 1, n, acc =>
      if n = 0 then acc
      else natToDigitsFuel fuel (n / 10) (Char.ofNat (48 + n % 10) :: acc)

/-- Decimal digit characters of n, most significant first: the digits of
Python str(n). -/
def natToDigits (n : Nat) : List Char :=
  if n = 0 then ['0'] else natToDigitsFuel n n []

/-- The f-string format {n:03d} for a natural n: left pad with zeros to
width 3. -/
def pad3 (n : Nat) : List Char :=
  List.replicate (3 - (natToDigits n).length) '0' ++ natToDigits n

theorem digitChar_toNat (d : Nat) (hd : d < 10) :
    (Char.ofNat (48 + d)).toNat = 48 + d := by
  interval_cases d <;> decide

theorem digitChar_isDigit (d : Nat) (hd : d < 10) :
    isDigitChar (Char.ofNat (48 + d)) := by
  interval_cases d <;> exact ⟨by decide, by decide⟩

theorem natToDigitsFuel_digits :
    ∀ (fuel n : Nat) (acc : List Char), (∀ c ∈ acc, isDigitChar c) →
      ∀ c ∈ natToDigitsFuel fuel n acc, isDigitChar c := by
  intro fuel
  induction fuel with
  | zero => intro n acc h c hc; exact h c hc
  | succ fuel ih =>
      intro n acc h c hc
      rw [natToDigitsFuel] at hc
      split at hc
      · exact h c hc
      · refine ih (n / 10) _ ?_ c hc
        intro c' hc'
        rcases List.mem_cons.mp hc' with h1 | h1
        · subst h1
          exact digitChar_isDigit (n % 10) (Nat.mod_lt _ (by omega))
        · exact h c' h1

theorem natToDigits_digits (n : Nat) : ∀ c ∈ natToDigits n, isDigitChar c := by
  unfold natToDigits
  split
  · intro c hc
    rw [List.mem_singleton.mp hc]
    exact ⟨by decide, by decide⟩
  · exact natToDigitsFuel_digits n n [] (by simp)

theorem pad3_digits (n : Nat) : ∀ c ∈ pad3 n, isDigitChar c := by
  intro c hc
  rcases List.mem_append.mp hc with h | h
  · rw [List.eq_of_mem_replicate h]
    exact ⟨by decide, by decide⟩
  · exact natToDigits_digits n c h

theorem natToDigitsFuel_ne_nil (fuel n : Nat) (acc : List Char)
    (h : n ≠ 0) (hf : fuel ≠ 0) :
    natToDigitsFuel fuel n acc ≠ [] := by
  cases fuel with
  | zero => exact absurd rfl hf
  | succ fuel =>
      rw [natToDigitsFuel, if_neg h]
      cases fuel with
      | zero => simp [natToDigitsFuel]
      | succ fuel' =>
          rw [natToDigitsFuel]
          split
          · simp
          · -- recursive call keeps a nonempty accumulator
            have : ∀ f m (a : List Char), a ≠ [] → natToDigitsFuel f m a ≠ [] := by
              intro f
              induction f with
              | zero => intro m a ha; simpa [natToDigitsFuel] using ha
              | succ f ihf =>
                  intro m a ha
                  rw [natToDigitsFuel]
                  split
                  · exact ha
                  · exact ihf (m / 10) _ (by simp)
            exact this _ _ _ (by simp)

theorem natToDigits_ne_nil (n : Nat) : natToDigits n ≠ [] := by
  unfold natToDigits
  split
  · simp
  · exact natToDigitsFuel_ne_nil n n [] (by assumption) (by assumption)

/-- The digit-folding step of the accumulating decimal parse. -/
def digitStep (a : Nat) (c : Char) : Nat := a * 10 + (c.toNat - 48)

theorem parseDigitsAux_all_digits :
    ∀ (ds : List Char) (a : Nat), (∀ c ∈ ds, isDigitChar c) →
      parseDigitsAux a ds = some (ds.foldl digitStep a) := by
  intro ds
  induction ds with
  | nil => intro a _; rfl
  | cons c cs ih =>
      intro a h
      have hc : isDigitChar c := h c (List.mem_cons_self _ _)
      rw [parseDigitsAux]
      have hval : digitVal? c = some (c.toNat - 48) := by
        unfold digitVal?
        exact if_pos hc
      rw [hval]
      simp only [List.foldl_cons]
      exact ih _ (fun c' hc' => h c' (List.mem_cons_of_mem _ hc'))

/-- The numeric value accumulated while folding the digits of n onto a,
driven by the same fuel recursion as natToDigitsFuel. -/
def shiftVal : Nat → Nat → Nat → Nat
  | 0, a, _ => a
  | fuel + 1, a, n => if n = 0 then a else shiftVal fuel a (n / 10) * 10 + n % 10

theorem natToDigitsFuel_foldl :
    ∀ (fuel n : Nat) (acc : List Char) (a : Nat),
      (natToDigitsFuel fuel n acc).foldl digitStep a =
        acc.foldl digitStep (shiftVal fuel a n) := by
  intro fuel
  induction fuel with
  | zero => intro n acc a; rfl
  | succ fuel ih =>
      intro n acc a
      rw [natToDigitsFuel, shiftVal]
      split
      · rfl
      · rw [ih (n / 10) _ a]
        simp only [List.foldl_cons, digitStep]
        rw [digitChar_toNat (n % 10) (Nat.mod_lt _ (by omega))]
        congr 1
        omega

theorem shiftVal_zero : ∀ (fuel n : Nat), n ≤ fuel → shiftVal fuel 0 n = n := by
  intro fuel
  induction fuel with
  | zero => intro n h; interval_cases n; rfl
  | succ fuel ih =>
      intro n h
      rw [shiftVal]
      split
      · omega
      · rename_i hn
        have h10 : n / 10 ≤ fuel := by
          have := Nat.div_le_self n 10
          have : n / 10 < n := Nat.div_lt_self (by omega) (by omega)
          omega
        rw [ih (n / 10) h10]
        have := Nat.div_add_mod n 10
        omega

theorem natToDigits_foldl (n : Nat) : (natToDigits n).foldl digitStep 0 = n := by
  unfold natToDigits
  split
  · rename_i h
    subst h
    decide
  · rw [natToDigitsFuel_foldl n n [] 0]
    simp only [List.foldl_nil]
    exact shiftVal_zero n n (Nat.le_refl n)

theorem pad3_foldl (n : Nat) : (pad3 n).foldl digitStep 0 = n := by
  unfold pad3
  rw [List.foldl_append]
  have hz : ∀ k, (List.replicate k '0').foldl digitStep 0 = 0 := by
    intro k
    induction k with
    | zero => rfl
    | succ k ihk => simpa [List.replicate_succ, digitStep] using ihk
  rw [hz]
  exact natToDigits_foldl n

theorem parseNat_digits (ds : List Char) (hne : ds ≠ [])
    (h : ∀ c ∈ ds, isDigitChar c) :
    parseNat ds = some (ds.foldl digitStep 0) := by
  cases ds with
  | nil => exact absurd rfl hne
  | cons c cs =>
      rw [parseNat]
      exact parseDigitsAux_all_digits _ 0 h

theorem dropWhile_no_space (l : List Char) (h : ∀ c ∈ l, c ≠ ' ') :
    l.dropWhile (fun c => c = ' ') = l := by
  cases l with
  | nil => rfl
  | cons c cs =>
      rw [List.dropWhile_cons]
      have hc : ¬ (c = ' ') := h c (List.mem_cons_self _ _)
      simp [hc]

theorem stripSpaces_eq (l : List Char) (h : ∀ c ∈ l, c ≠ ' ') :
    stripSpaces l = l := by
  unfold stripSpaces
  rw [dropWhile_no_space l h,
    dropWhile_no_space _ (fun c hc => h c (List.mem_reverse.mp hc)),
    List.reverse_reverse]

theorem parseInt_digits (ds : List Char) (hne : ds ≠ [])
    (h : ∀ c ∈ ds, isDigitChar c) :
    parseInt ds = some ((ds.foldl digitStep 0 : Nat) : Int) := by
  have hns : ∀ c ∈ ds, c ≠ ' ' := by
    intro c hc heq
    obtain ⟨h1, h2⟩ := h c hc
    rw [heq] at h1
    have hsp : (' ').toNat = 32 := by decide
    omega
  unfold parseInt
  rw [stripSpaces_eq ds hns]
  cases ds with
  | nil => exact absurd rfl hne
  | cons c cs =>
      obtain ⟨h1, h2⟩ := h c (List.mem_cons_self _ _)
      split
      · rename_i rest heq
        rw [List.cons.injEq] at heq
        obtain ⟨hcm, -⟩ := heq
        rw [hcm] at h1
        have : ('-').toNat = 45 := by decide
        omega
      · rename_i rest heq
        rw [List.cons.injEq] at heq
        obtain ⟨hcm, -⟩ := heq
        rw [hcm] at h1
        have : ('+').toNat = 43 := by decide
        omega
      · rw [parseNat_digits (c :: cs) (by simp) h]
        rfl

theorem splitChar_no_sep (sep : Char) :
    ∀ ds : List Char, sep ∉ ds → splitChar sep ds = [ds] := by
  intro ds
  induction ds with
  | nil => intro _; rfl
  | cons c cs ih =>
      intro h
      have hcs : sep ∉ cs := fun hh => h (List.mem_cons_of_mem _ hh)
      have hc : ¬ (c = sep) := fun hh => h (hh ▸ List.mem_cons_self _ _)
      rw [splitChar, ih hcs]
      simp [hc]

theorem splitChar_append_getLast (sep : Char) (ds : List Char)
    (hds : sep ∉ ds) :
    ∀ xs : List Char, ∃ r r2 rs2,
      splitChar sep (xs ++ sep :: ds) = r :: r2 :: rs2 ∧
      (r :: r2 :: rs2).getLast? = some ds := by
  intro xs
  induction xs with
  | nil =>
      refine ⟨[], ds, [], ?_, by simp⟩
      rw [List.nil_append, splitChar, splitChar_no_sep sep ds hds]
      simp
  | cons c xs ih =>
      obtain ⟨r, r2, rs2, h1, h2⟩ := ih
      rw [List.cons_append, splitChar, h1]
      by_cases hc : c = sep
      · refine ⟨[], r, r2 :: rs2, by simp [hc], ?_⟩
        rw [List.getLast?_cons_cons]
        exact h2
      · refine ⟨c :: r, r2, rs2, by simp [hc], ?_⟩
        rw [List.getLast?_cons_cons] at h2 ⊢
        exact h2

theorem pad3_ne_nil (n : Nat) : pad3 n ≠ [] := by
  unfold pad3
  intro h
  exact natToDigits_ne_nil n (List.append_eq_nil.mp h).2

theorem parseTrailing_result_stem (pre : List Char) (n : Nat) :
    (splitChar '_' ((pre ++ ['_']) ++ pad3 n)).getLast?.bind parseInt =
      some (n : Int) := by
  have hds : '_' ∉ pad3 n := by
    intro h
    obtain ⟨h1, h2⟩ := pad3_digits n _ h
    have : ('_').toNat = 95 := by decide
    omega
  have happ : (pre ++ ['_']) ++ pad3 n = pre ++ '_' :: pad3 n := by simp
  rw [happ]
  obtain ⟨r, r2, rs2, h1, h2⟩ := splitChar_append_getLast '_' (pad3 n) hds pre
  rw [h1, h2]
  rw [Option.some_bind]
  rw [parseInt_digits (pad3 n) (pad3_ne_nil n) (pad3_digits n), pad3_foldl n]

theorem listStartsWith_append :
    ∀ (p t : List Char), listStartsWith p (p ++ t) = true := by
  intro p t
  induction p with
  | nil => rfl
  | cons c cs ih => simp [listStartsWith, ih]

theorem enhanced_stem_parses (n : Nat) :
    (splitChar '_' ("enhanced_result_".data ++ pad3 n)).getLast?.bind parseInt =
      some (n : Int) := by
  have h : "enhanced_result_".data = ("enhanced_result".data ++ ['_']) := by decide
  rw [h]
  exact parseTrailing_result_stem "enhanced_result".data n

/-- A freshly written enhanced-style result file for index n is picked up
by the Result Store scan: its parsed index set is exactly the singleton n. -/
theorem existingResults_single_enhanced (n : Nat) :
    existingResults ["enhanced_result_".data ++ pad3 n] = [(n : Int)] := by
  have h1 : listStartsWith "enhanced_result_".data
      ("enhanced_result_".data ++ pad3 n) = true := listStartsWith_append _ _
  have h2 : listStartsWith "parallel_result_".data
      ("enhanced_result_".data ++ pad3 n) = false := by rfl
  unfold existingResults resultFilePatterns
  rw [List.map_cons, List.map_cons, List.map_nil,
    List.flatten_cons, List.flatten_cons, List.flatten_nil, List.append_nil,
    List.filter_cons, List.filter_cons, h1, h2,
    if_pos rfl, if_neg Bool.false_ne_true, List.filter_nil, List.filter_nil,
    List.filterMap_nil, List.append_nil]
  simp only [List.filterMap_cons, List.filterMap_nil]
  rw [enhanced_stem_parses n]

/-! ## Worker per-item processing (ab_test_analyzer_enhanced.py) -/

/-- The data returned by one successful capture (capture_screenshot lines
138-144); only the filename is kept, the extracted titles influence no
claim. -/
structure CaptureData where
  filename : String
deriving Repr, DecidableEq

/-- config.py line 29: MAX_RETRIES = 3. -/
def MAX_RETRIES : Nat := 3

/-- EnhancedABTestAnalyzer.capture_screenshot lines 108-151: the loop
`for attempt in range(max_retries)`.  The environment is `attempts`,
giving each attempt's outcome (`some` captured data, `none` for a raise
or timeout); the loop returns the first success, and returns none right
after the failure of attempt max_retries - 1.  The fixed 2-second
time.sleep between attempts has no observable effect in the embedding.
The fuel counts the remaining loop iterations, so the 0 case is
unreachable from capture_screenshot below. -/
def captureAttempts (attempts : Nat → Option CaptureData) :
    Nat → Nat → Option CaptureData
  | 0, _ => none
  | fuel + 1, attempt =>
      match attempts attempt with
      | some c => some c
      | none =>
          if attempt = MAX_RETRIES - 1 then none
          else captureAttempts attempts fuel (attempt + 1)

def capture_screenshot (attempts : Nat → Option CaptureData) :
    Option CaptureData :=
  captureAttempts attempts MAX_RETRIES 0

/-- The classifier judgment fields that reach the ResultRecord
(analyze_with_enhanced_gpt; process_url lines 332-362). -/
structure GptAnalysis where
  winner : String
  confidence : Rat
  score_a : Rat
  score_b : Rat
  duplicates_in_a : Int
  duplicates_in_b : Int
deriving Repr, DecidableEq

/-- process_url lines 316-330: the degraded placeholder analysis used
when the classifier call fails or returns unparsable output. -/
def placeholderAnalysis : GptAnalysis :=
  { winner := "unknown", confidence := 1/2, score_a := 0, score_b := 0,
    duplicates_in_a := -1, duplicates_in_b := -1 }

/-- EnhancedABTestAnalyzer.process_url lines 298-370.  Inputs: the
attempt outcomes of the two variant capture loops and the classifier
outcome (`none` for an API failure or unparsable response).  Output: the
record the function returns, together with the list of result-file stems
it writes -- lines 365-368 write enhanced_result_{url_index:03d}.json
exactly when both captures succeeded, and lines 309-311 return None with
no write when either capture failed. -/
def process_url (captureA captureB : Nat → Option CaptureData)
    (classifier : Option GptAnalysis) (url_index : Nat) :
    Option ResultRec × List (List Char) :=
  match capture_screenshot captureA, capture_screenshot captureB with
  | some _, some _ =>
      let analysis := classifier.getD placeholderAnalysis
      let r : ResultRec :=
        { url_index := (url_index : Int)
          variant_a := { score := analysis.score_a,
                         duplicates := analysis.duplicates_in_a }
          variant_b := { score := analysis.score_b,
                         duplicates := analysis.duplicates_in_b }
          analysis := { winner := analysis.winner,
                        confidence := analysis.confidence } }
      (some r, ["enhanced_result_".data ++ pad3 url_index])
  | _, _ => (none, [])

/-- Claim C4: each variant capture is attempted at most 3 times (the
loop outcome depends only on attempts 0, 1 and 2); a capture failing
exactly twice then succeeding on the third attempt succeeds overall, and
with the other variant also captured process_url returns a ResultRecord
and writes its result file; a capture failing on all 3 attempts makes
process_url return none and write no result file, so no index is added
to the processed set and the item stays in the backlog. -/
theorem C4_capture_retry :
    (∀ (f g : Nat → Option CaptureData),
      (∀ n, n < 3 → f n = g n) → capture_screenshot f = capture_screenshot g) ∧
    (∀ (f : Nat → Option CaptureData) (c : CaptureData),
      f 0 = none → f 1 = none → f 2 = some c → capture_screenshot f = some c) ∧
    (∀ (f : Nat → Option CaptureData), (∀ n, n < 3 → f n = none) →
      capture_screenshot f = none) ∧
    (∀ (fa fb : Nat → Option CaptureData) (cls : Option GptAnalysis)
        (idx : Nat) (ca : CaptureData),
      fa 0 = none → fa 1 = none → fa 2 = some ca →
      (∃ cb, capture_screenshot fb = some cb) →
      (process_url fa fb cls idx).1.isSome = true ∧
      (process_url fa fb cls idx).2 = ["enhanced_result_".data ++ pad3 idx]) ∧
    (∀ (fa fb : Nat → Option CaptureData) (cls : Option GptAnalysis) (idx : Nat),
      (∀ n, n < 3 → fa n = none) →
      process_url fa fb cls idx = (none, []) ∧
      existingResults (process_url fa fb cls idx).2 = []) := by
  have hagree : ∀ (f g : Nat → Option CaptureData),
      (∀ n, n < 3 → f n = g n) → capture_screenshot f = capture_screenshot g := by
    intro f g h
    have e0 := h 0 (by omega)
    have e1 := h 1 (by omega)
    have e2 := h 2 (by omega)
    show captureAttempts f 3 0 = captureAttempts g 3 0
    simp only [captureAttempts, MAX_RETRIES]
    rw [e0, e1, e2]
  have hsucc3 : ∀ (f : Nat → Option CaptureData) (c : CaptureData),
      f 0 = none → f 1 = none → f 2 = some c → capture_screenshot f = some c := by
    intro f c h0 h1 h2
    show captureAttempts f 3 0 = some c
    simp only [captureAttempts, MAX_RETRIES, h0, h1, h2]
    norm_num
  have hfail : ∀ (f : Nat → Option CaptureData), (∀ n, n < 3 → f n = none) →
      capture_screenshot f = none := by
    intro f h
    have e0 := h 0 (by omega)
    have e1 := h 1 (by omega)
    have e2 := h 2 (by omega)
    show captureAttempts f 3 0 = none
    simp only [captureAttempts, MAX_RETRIES, e0, e1, e2]
    norm_num
  refine ⟨hagree, hsucc3, hfail, ?_, ?_⟩
  · intro fa fb cls idx ca h0 h1 h2 hex
    obtain ⟨cb, hcb⟩ := hex
    have hca := hsucc3 fa ca h0 h1 h2
    constructor
    · unfold process_url
      rw [hca, hcb]
      rfl
    · unfold process_url
      rw [hca, hcb]
  · intro fa fb cls idx h
    have hca := hfail fa h
    constructor
    · unfold process_url
      rw [hca]
    · unfold process_url
      rw [hca]
      cases capture_screenshot fb <;> rfl

/-- Witness for claim C4: an attempt sequence failing twice then
succeeding yields the capture; one failing three times makes process_url
return none and write nothing. -/
theorem C4_capture_retry_witness :
    capture_screenshot (fun n => if n = 2 then some ⟨"shot"⟩ else none) =
      some ⟨"shot"⟩ ∧
    process_url (fun _ => none) (fun _ => some ⟨"other"⟩) none 7 = (none, []) :=
  ⟨C4_capture_retry.2.1 (fun n => if n = 2 then some ⟨"shot"⟩ else none) ⟨"shot"⟩
      (by decide) (by decide) (by decide),
   (C4_capture_retry.2.2.2.2 (fun _ => none) (fun _ => some ⟨"other"⟩) none 7
      (fun n _ => rfl)).1⟩

/-- Claim C5: when both captures succeed and the classifier fails,
process_url returns a non-null ResultRecord with winner unknown and
score 0 for both variants, and writes the result file for that index --
whose stem the Result Store scan parses back to exactly that index, so
the index subsequently appears in the set of processed indices and does
not re-enter the backlog. -/
theorem C5_degraded_record (fa fb : Nat → Option CaptureData) (idx : Nat)
    (ca cb : CaptureData)
    (hca : capture_screenshot fa = some ca)
    (hcb : capture_screenshot fb = some cb) :
    process_url fa fb none idx =
      (some { url_index := (idx : Int),
              variant_a := { score := 0, duplicates := -1 },
              variant_b := { score := 0, duplicates := -1 },
              analysis := { winner := "unknown", confidence := 1/2 } },
       ["enhanced_result_".data ++ pad3 idx]) ∧
    existingResults ["enhanced_result_".data ++ pad3 idx] = [(idx : Int)] := by
  constructor
  · unfold process_url
    rw [hca, hcb]
    rfl
  · exact existingResults_single_enhanced idx

/-- Witness for claim C5: with both captures succeeding on the first
attempt and a failed classifier, the record is the degraded placeholder
and its index is scanned back from the written stem. -/
theorem C5_degraded_record_witness :
    process_url (fun _ => some ⟨"a"⟩) (fun _ => some ⟨"b"⟩) none 3 =
      (some { url_index := 3,
              variant_a := { score := 0, duplicates := -1 },
              variant_b := { score := 0, duplicates := -1 },
              analysis := { winner := "unknown", confidence := 1/2 } },
       ["enhanced_result_".data ++ pad3 3]) ∧
    existingResults ["enhanced_result_".data ++ pad3 3] = [(3 : Int)] :=
  C5_degraded_record (fun _ => some ⟨"a"⟩) (fun _ => some ⟨"b"⟩) 3 ⟨"a"⟩ ⟨"b"⟩
    (by decide) (by decide)

/-! ## Variant URL construction
(EnhancedABTestAnalyzer.modify_url_with_param, lines 100-106)

The Python parses the base URL, rebuilds the query with
query_params['opt_seg'] = [param] and urlencode(..., doseq=True), and
reassembles; only the query component changes, so the embedding works on
the raw query string as a character list.  parse_qs with its default
keep_blank_values=False splits on the ampersand, splits each field at
its first equals sign, drops fields whose value is empty (and fields
with no equals sign at all), percent-decodes, and groups values by key
in first-occurrence order; urlencode(..., doseq=True) re-joins
key=value fields with ampersands, each key's values in order.  Percent
decoding/encoding is the identity on the character data exercised here
and is embedded as the identity. -/

/-- Split a field at its first equals sign. -/
def splitFirstEq : List Char → Option (List Char × List Char)
  | [] => none
  | c :: cs =>
      if c = '=' then some ([], cs)
      else
        match splitFirstEq cs with
        | none => none
        | some (k, v) => some (c :: k, v)

/-- The (key, value) fields parse_qsl keeps under keep_blank_values=False:
nonempty fields with an equals sign and a nonempty value. -/
def qsPairs (q : List Char) : List (List Char × List Char) :=
  (splitChar '&' q).filterMap (fun field =>
    match splitFirstEq field with
    | none => none
    | some (k, v) => if v = [] then none else some (k, v))

/-- Append a value under a key of the grouping dict, keeping the key
order of first occurrence. -/
def dictAppend (k : List Char) (v : List Char) :
    List (List Char × List (List Char)) → List (List Char × List (List Char))
  | [] => [(k, [v])]
  | (k0, vs) :: rest =>
      if k0 = k then (k0, vs ++ [v]) :: rest
      else (k0, vs) :: dictAppend k v rest

/-- urllib.parse.parse_qs on the raw query string. -/
def parse_qs (q : List Char) : List (List Char × List (List Char)) :=
  (qsPairs q).foldl (fun m kv => dictAppend kv.1 kv.2 m) []

def optSegKey : List Char := "opt_seg".data

/-- Python dict assignment query_params['opt_seg'] = [param]: overwrite
in place, append when absent. -/
def dictSetQ (k : List Char) (vs : List (List Char)) :
    List (List Char × List (List Char)) → List (List Char × List (List Char))
  | [] => [(k, vs)]
  | (k0, vs0) :: rest =>
      if k0 = k then (k, vs) :: rest
      else (k0, vs0) :: dictSetQ k vs rest

/-- The parameter dict after line 104. -/
def modified_query_params (q param : List Char) :
    List (List Char × List (List Char)) :=
  dictSetQ optSegKey [param] (parse_qs q)

/-- Join fields with ampersands. -/
def joinAmp : List (List Char) → List Char
  | [] => []
  | [f] => f
  | f :: g :: fs => f ++ '&' :: joinAmp (g :: fs)

/-- urlencode(query_params, doseq=True). -/
def urlencode_doseq (m : List (List Char × List (List Char))) : List Char :=
  joinAmp ((m.map (fun kv => kv.2.map (fun v => kv.1 ++ '=' :: v))).flatten)

/-- modify_url_with_param lines 100-106, restricted to the query
component of the URL (the other components pass through urlunparse
unchanged). -/
def modify_url_with_param (q param : List Char) : List Char :=
  urlencode_doseq (modified_query_params q param)

/-- Lookup in the grouping dict. -/
def dictLookup (k : List Char) :
    List (List Char × List (List Char)) → Option (List (List Char))
  | [] => none
  | (k0, vs) :: rest => if k0 = k then some vs else dictLookup k rest

theorem dictSetQ_lookup_self (k : List Char) (vs : List (List Char)) :
    ∀ m, dictLookup k (dictSetQ k vs m) = some vs := by
  intro m
  induction m with
  | nil => simp [dictSetQ, dictLookup]
  | cons p rest ih =>
      obtain ⟨k0, vs0⟩ := p
      rw [dictSetQ]
      by_cases h : k0 = k
      · rw [if_pos h, dictLookup, if_pos rfl]
      · rw [if_neg h, dictLookup, if_neg h]
        exact ih

theorem dictSetQ_lookup_other (k k' : List Char) (vs : List (List Char))
    (hne : k' ≠ k) :
    ∀ m, dictLookup k' (dictSetQ k vs m) = dictLookup k' m := by
  intro m
  induction m with
  | nil =>
      show (if k = k' then some vs else dictLookup k' []) = dictLookup k' []
      rw [if_neg (fun hh : k = k' => hne hh.symm)]
  | cons p rest ih =>
      obtain ⟨k0, vs0⟩ := p
      rw [dictSetQ]
      by_cases h : k0 = k
      · rw [if_pos h, dictLookup, if_neg (fun hh : k = k' => hne hh.symm),
          dictLookup, if_neg (fun hh : k0 = k' => hne ((h.symm.trans hh).symm))]
      · rw [if_neg h, dictLookup, dictLookup]
        by_cases h2 : k0 = k'
        · rw [if_pos h2, if_pos h2]
        · rw [if_neg h2, if_neg h2]
          exact ih

/-- Claim C9, counterexample: a base query a=&b=2 holds a parameter a
with a blank value; parse_qs drops it (keep_blank_values defaults to
False), so the rebuilt query is b=2&opt_seg=5 -- parameter a is not
preserved in the resulting URL. -/
theorem C9_url_params_counterexample :
    modify_url_with_param "a=&b=2".data "5".data = "b=2&opt_seg=5".data ∧
    (modified_query_params "a=&b=2".data "5".data).map Prod.fst =
      ["b".data, "opt_seg".data] := by
  constructor
  · decide
  · decide

/-- Claim C9, amended: the variant URL sets opt_seg to the variant's
value; every other query parameter of the base URL with a non-empty
value is preserved with its values and repetitions (re-grouped by key in
first-occurrence order), while parameters with blank values, or bare
names without an equals sign, are dropped by the parse. -/
theorem C9_url_params_amended (q param : List Char) :
    dictLookup optSegKey (modified_query_params q param) = some [param] ∧
    (∀ k, k ≠ optSegKey →
      dictLookup k (modified_query_params q param) = dictLookup k (parse_qs q)) ∧
    modify_url_with_param "a=1&b=2&a=3".data "5".data =
      "a=1&a=3&b=2&opt_seg=5".data ∧
    modify_url_with_param "a=&b=2".data "5".data = "b=2&opt_seg=5".data := by
  refine ⟨?_, ?_, by decide, by decide⟩
  · exact dictSetQ_lookup_self optSegKey [param] (parse_qs q)
  · intro k hk
    exact dictSetQ_lookup_other optSegKey k [param] hk (parse_qs q)

/-- Witness for the amended claim C9. -/
theorem C9_url_params_amended_witness :
    dictLookup "x".data (modified_query_params "x=1".data "5".data) =
      dictLookup "x".data (parse_qs "x=1".data) ∧
    dictLookup optSegKey (modified_query_params "x=1".data "5".data) =
      some ["5".data] :=
  ⟨(C9_url_params_amended "x=1".data "5".data).2.1 "x".data (by decide),
   (C9_url_params_amended "x=1".data "5".data).1⟩

/-- Witness for claim C10: a record with variant A duplicates -1 and
variant B duplicates 4 leaves the denominator count unchanged. -/
theorem C10_duplicate_denominator_witness :
    valid_duplicate_count
      ({ url_index := 1, variant_a := ⟨0, -1⟩, variant_b := ⟨0, 4⟩,
         analysis := ⟨"A", 0⟩ } ::
        [{ url_index := 2, variant_a := ⟨0, 2⟩, variant_b := ⟨0, 0⟩,
           analysis := ⟨"B", 0⟩ }]) =
      valid_duplicate_count
        [{ url_index := 2, variant_a := ⟨0, 2⟩, variant_b := ⟨0, 0⟩,
           analysis := ⟨"B", 0⟩ }] :=
  (C10_duplicate_denominator
    [{ url_index := 2, variant_a := ⟨0, 2⟩, variant_b := ⟨0, 0⟩,
       analysis := ⟨"B", 0⟩ }]
    { url_index := 1, variant_a := ⟨0, -1⟩, variant_b := ⟨0, 4⟩,
      analysis := ⟨"A", 0⟩ }
    (by decide) (by decide)).1

end JamieCheck
